import Mathlib

set_option autoImplicit false

/-!
Shallow embedding of the Job/Worker lifecycle orchestrator (`Manager`)
from the CCAssignment repository, file `manager.go` (given as
`src/unnamed/part_000`), together with theorems settling the spec claims.

External effects (the AWS EC2 calls and the SSH transport) are abstracted
as oracles passed to each operation:
  * `createWorker : Nat → Except String Worker` gives the result of the
    i-th `createWorker` call made by `StartJob` (instance creation plus
    the wait-until-running poll, collapsed into one fallible step, as the
    source wraps them in one helper);
  * `stopWorker : Worker → Option String` gives the result of
    `TerminateInstances` for one worker (`none` = success);
  * `SshEnv` bundles the effectful steps of `runCommand`: the
    DescribeInstances query, reading and parsing the PEM file, the
    attempt-indexed `ssh.Dial`, session creation and command execution.
Go `error` results are `Option String` (`none` = nil) or
`Except String α`; Go maps are association lists with Go assignment /
delete / index semantics (`mapInsert`, `mapDelete`, `mapLookup`).
-/

namespace CCA

/-- One provisioned compute instance handle (`Worker` in the source; the
struct declaration itself is outside the given files, its single field
`Id` is determined by every use in `manager.go`). -/
structure Worker where
  id : String
deriving DecidableEq, Repr

/-- A unit of work (`Job` in the source); fields as populated by
`JobFromRecord`. -/
structure Job where
  id : String
  name : String
  email : String
  capacity : Int
  timelimit : Int
  workers : List (String × Worker)
  hash : String
  hashType : String
deriving DecidableEq, Repr

/-- A DynamoDB record, as consumed by `JobFromRecord`. -/
structure Record where
  id : String
  name : String
  email : String
  capacity : Int
  timelimit : Int
  hash : String
  hashType : String
deriving DecidableEq, Repr

/-- The orchestrator (`Manager` in the source); the EC2 service handle is
abstracted away, the active-job registry `Jobs` is kept. -/
structure Manager where
  jobs : List (String × Job)
deriving DecidableEq, Repr

/-- Go map assignment `m[k] = v`: replace the entry for `k` when present,
otherwise add one. -/
def mapInsert {α : Type} : List (String × α) → String → α → List (String × α)
  | [], k, v => [(k, v)]
  | (k2, v2) :: rest, k, v =>
      if k2 = k then (k, v) :: rest else (k2, v2) :: mapInsert rest k v

/-- Go map indexing `m[k]` (as `Option`). -/
def mapLookup {α : Type} : List (String × α) → String → Option α
  | [], _ => none
  | (k2, v2) :: rest, k => if k2 = k then some v2 else mapLookup rest k

/-- Go `delete(m, k)`. -/
def mapDelete {α : Type} : List (String × α) → String → List (String × α)
  | [], _ => []
  | (k2, v2) :: rest, k =>
      if k2 = k then mapDelete rest k else (k2, v2) :: mapDelete rest k

/-- `JobFromRecord` from the source: hydrate a `Job` from a record, the
worker map initialized empty. -/
def JobFromRecord (rec : Record) : Job :=
  { id := rec.id
    name := rec.name
    email := rec.email
    capacity := rec.capacity
    timelimit := rec.timelimit
    workers := []
    hash := rec.hash
    hashType := rec.hashType }

/-- `startWorker` from the source: a placeholder that does nothing and
returns nil; `StartJob` discards its result. -/
def Manager.startWorker (_ : Worker) : Option String := none

/-- One iteration of the `StartJob` fan-out loop, acting on the result of
the i-th `createWorker` call: on error append the message to the error
list, on success insert the worker into the worker map (and call the
no-op `startWorker`, whose nil result is discarded). -/
def applyCreateResult (st : List (String × Worker) × List String)
    (r : Except String Worker) : List (String × Worker) × List String :=
  match r with
  | Except.error e => (st.1, st.2 ++ [e])
  | Except.ok w => (mapInsert st.1 w.id w, st.2)

/-- The body of the `StartJob` loop at index `i`, with the oracle
`createWorker` giving the result of the i-th creation attempt. -/
def startStep (createWorker : Nat → Except String Worker)
    (st : List (String × Worker) × List String) (i : Nat) :
    List (String × Worker) × List String :=
  applyCreateResult st (createWorker i)

/-- Result of `Manager.StartJob`: the updated manager, the job object as
the call leaves it (the source mutates it through a pointer), and the
returned error (`none` = nil). -/
structure StartOutcome where
  man : Manager
  job : Job
  err : Option String
deriving DecidableEq, Repr

/-- `Manager.StartJob` from the source: run `createWorker` once per unit
of capacity (the Go loop `for i := 0; i < job.Capacity; i++`), collecting
successes into the worker map and failure messages into a list; if any
message was recorded return their `"; "`-join and leave the registry
untouched, otherwise add the job to the registry and return nil. -/
def Manager.StartJob (createWorker : Nat → Except String Worker)
    (man : Manager) (job : Job) : StartOutcome :=
  let st := (List.range job.capacity.toNat).foldl (startStep createWorker)
    (job.workers, [])
  let job1 : Job := { job with workers := st.1 }
  if 0 < st.2.length then
    { man := man, job := job1, err := some (String.intercalate "; " st.2) }
  else
    { man := { man with jobs := mapInsert man.jobs job1.id job1 }
      job := job1
      err := none }

/-- Result of `Manager.StopJob`: the updated manager, the job object as
the call leaves it, and the returned error. -/
structure StopOutcome where
  man : Manager
  job : Job
  err : Option String
deriving DecidableEq, Repr

/-- `Manager.StopJob` from the source: call `stopWorker` on every worker
in the worker map, collecting failure messages; if any message was
recorded return their `"; "`-join (the registry is NOT touched on this
path), otherwise delete the job from the registry and return nil. -/
def Manager.StopJob (stopWorker : Worker → Option String)
    (man : Manager) (job : Job) : StopOutcome :=
  let errors := job.workers.foldl
    (fun es p =>
      match stopWorker p.2 with
      | some e => es ++ [e]
      | none => es) []
  if 0 < errors.length then
    { man := man, job := job, err := some (String.intercalate "; " errors) }
  else
    { man := { man with jobs := mapDelete man.jobs job.id }
      job := job
      err := none }

/-- The list of results of the first `n` `createWorker` calls. -/
def createResults (createWorker : Nat → Except String Worker) (n : Nat) :
    List (Except String Worker) :=
  (List.range n).map createWorker

/-- The successfully created workers among a list of creation results, in
order. -/
def okWorkers (l : List (Except String Worker)) : List Worker :=
  l.filterMap fun r =>
    match r with
    | Except.ok w => some w
    | Except.error _ => none

/-- The failure messages among a list of creation results, in order. -/
def errMessages (l : List (Except String Worker)) : List String :=
  l.filterMap fun r =>
    match r with
    | Except.ok _ => none
    | Except.error e => some e

/-- Insert a list of workers into a worker map, one Go map assignment
per worker (the successful branch of the fan-out loop, iterated). -/
def insertAll (ws : List (String × Worker)) (l : List Worker) :
    List (String × Worker) :=
  l.foldl (fun m w => mapInsert m w.id w) ws

/-- The failure messages `StopJob` collects over a worker map, in
iteration order. -/
def stopErrors (stopWorker : Worker → Option String)
    (ws : List (String × Worker)) : List String :=
  ws.filterMap fun p => stopWorker p.2

/-- An EC2 instance as used by `runCommand` and `getWorkerInstance`: its
id and public IP address. -/
structure Instance where
  instanceId : String
  publicIpAddress : String
deriving DecidableEq, Repr

/-- One reservation of a DescribeInstances response: a list of
instances. -/
structure Reservation where
  instances : List Instance
deriving DecidableEq, Repr

/-- An established SSH client connection (opaque handle). -/
structure Conn where
  cid : Nat
deriving DecidableEq, Repr

/-- A parsed SSH private key (opaque handle). -/
structure Signer where
  sid : Nat
deriving DecidableEq, Repr

/-- An open SSH session (opaque handle). -/
structure Session where
  nid : Nat
deriving DecidableEq, Repr

/-- The effectful collaborators of `runCommand`, as oracles:
`describe` is the DescribeInstances query filtered by a worker id
(returning the reservations list); `readFile` is `ioutil.ReadFile`;
`parsePrivateKey` is `ssh.ParsePrivateKey`; `dial t` is the result of the
t-th `ssh.Dial` attempt (1-indexed); `newSession` is `conn.NewSession`;
`runSession s cmd` is `session.Run cmd` together with the stdout captured
in the buffer; `pemPath` is `os.Getenv` of PEM_PATH. -/
structure SshEnv where
  describe : String → Except String (List Reservation)
  readFile : String → Except String String
  parsePrivateKey : String → Except String Signer
  dial : Nat → Except String Conn
  newSession : Conn → Except String Session
  runSession : Session → String → Except String String
  pemPath : String

/-- `Manager.getWorkerInstance` from the source: run the
DescribeInstances query for the worker id; on success return the first
instance of the first nonempty reservation (the nested range loops return
at the first instance); if no reservation holds an instance, return the
distinct not-found error. -/
def Manager.getWorkerInstance (env : SshEnv) (w : Worker) :
    Except String Instance :=
  match env.describe w.id with
  | Except.error e => Except.error e
  | Except.ok reservations =>
      match (reservations.map Reservation.instances).flatten.head? with
      | some inst => Except.ok inst
      | none => Except.error "Could not find running instance."

/-- The body of the `runCommand` retry loop
(`for conn == nil && try <= max`), with the loop condition phrased as
remaining fuel: at loop entry with counter `try` the loop may still run
`max + 1 - try` times, and each failed attempt decreases that count by
one. Returns the connection (when some attempt succeeded) and the number
of `ssh.Dial` calls made. The error of a failed attempt is only printed;
after the loop the source never reads it again. -/
def dialGo (dial : Nat → Except String Conn) (tryN : Nat) :
    Nat → Option Conn × Nat
  | 0 => (none, 0)
  | fuel + 1 =>
      match dial tryN with
      | Except.ok c => (some c, 1)
      | Except.error _ =>
          let r := dialGo dial (tryN + 1) fuel
          (r.1, r.2 + 1)

/-- The `runCommand` retry loop started at attempt `tryN` with attempt
bound `maxN` (the source starts at `try = 1` with `max = 5`). -/
def dialLoop (dial : Nat → Except String Conn) (tryN maxN : Nat) :
    Option Conn × Nat :=
  dialGo dial tryN (maxN + 1 - tryN)

/-- Outcome of one `runCommand` call. `ok` carries the captured stdout
(the source returns `*string`); `err` a returned non-nil error;
`nilDeref` the run-time panic the source hits when the retry loop
exhausts all attempts: `conn` is still nil, and both the deferred
`conn.Close()` and `conn.NewSession()` dereference the nil pointer. -/
inductive RunOutcome where
  | ok (stdout : String)
  | err (msg : String)
  | nilDeref
deriving DecidableEq, Repr

/-- `Manager.runCommand` from the source: resolve the worker instance,
read and parse the PEM file (each failure returned as-is), then dial up
to 5 times with the retry loop; with a connection in hand open a session
and run the command, returning the buffered stdout. The second component
counts the `ssh.Dial` attempts made (0 when the dial loop was never
reached). When the retry loop ends with no connection the source
dereferences the nil `conn`, modelled by `RunOutcome.nilDeref`. -/
def Manager.runCommand (env : SshEnv) (worker : Worker) (cmd : String) :
    RunOutcome × Nat :=
  match Manager.getWorkerInstance env worker with
  | Except.error e => (RunOutcome.err e, 0)
  | Except.ok _inst =>
      match env.readFile env.pemPath with
      | Except.error e => (RunOutcome.err e, 0)
      | Except.ok pemBytes =>
          match env.parsePrivateKey pemBytes with
          | Except.error e => (RunOutcome.err e, 0)
          | Except.ok _signer =>
              let r := dialLoop env.dial 1 5
              match r.1 with
              | none => (RunOutcome.nilDeref, r.2)
              | some conn =>
                  match env.newSession conn with
                  | Except.error e => (RunOutcome.err e, r.2)
                  | Except.ok sess =>
                      match env.runSession sess cmd with
                      | Except.error e => (RunOutcome.err e, r.2)
                      | Except.ok out => (RunOutcome.ok out, r.2)

/-- Outcome of `runCommands`: nil (`ok`), a returned error, or the
propagated nil-dereference panic of an exhausted `runCommand`. The
source returns only `error`; no stdout is carried. -/
inductive CmdsOutcome where
  | ok
  | err (msg : String)
  | nilDeref
deriving DecidableEq, Repr

/-- `Manager.runCommands` from the source: run the commands in order,
returning the first non-nil error of a `runCommand` call and dropping
the rest of the list; the captured stdout of each call is bound to an
unused variable and discarded; return nil when every command ran. -/
def Manager.runCommands (env : SshEnv) (worker : Worker) :
    List String → CmdsOutcome
  | [] => CmdsOutcome.ok
  | cmd :: rest =>
      match (Manager.runCommand env worker cmd).1 with
      | RunOutcome.err e => CmdsOutcome.err e
      | RunOutcome.nilDeref => CmdsOutcome.nilDeref
      | RunOutcome.ok _res => Manager.runCommands env worker rest

/-- Forget the stdout of a `runCommand` outcome, keeping only what
`runCommands` inspects. -/
def eraseOutput : RunOutcome → CmdsOutcome
  | RunOutcome.ok _ => CmdsOutcome.ok
  | RunOutcome.err e => CmdsOutcome.err e
  | RunOutcome.nilDeref => CmdsOutcome.nilDeref

/-! Concrete sample data, used to instantiate the theorems below on
closed inputs. -/

/-- A sample worker. -/
def w0 : Worker := { id := "w0" }

/-- A sample job holding one worker. -/
def jobA : Job :=
  { id := "jA", name := "n", email := "e", capacity := 1, timelimit := 9
    workers := [("w0", w0)], hash := "h", hashType := "t" }

/-- A sample manager whose registry holds `jobA`. -/
def manA : Manager := { jobs := [("jA", jobA)] }

/-- A sample manager with an empty registry. -/
def man0 : Manager := { jobs := [] }

/-- A `stopWorker` oracle that always fails. -/
def stopFail : Worker → Option String := fun _ => some "terminate failed"

/-- A `stopWorker` oracle that always succeeds. -/
def stopOk : Worker → Option String := fun _ => none

/-- A `createWorker` oracle failing exactly on the second and fourth
attempts (0-based indices 1 and 3). -/
def createC2 : Nat → Except String Worker := fun i =>
  if i = 1 then Except.error "fail 2"
  else if i = 3 then Except.error "fail 4"
  else Except.ok { id := "id" ++ Nat.repr i }

/-- A sample job of capacity 4 with an empty worker map. -/
def jobC2 : Job :=
  { id := "jB", name := "n", email := "e", capacity := 4, timelimit := 9
    workers := [], hash := "h", hashType := "t" }

/-- A `createWorker` oracle that always succeeds, with distinct ids. -/
def createOk : Nat → Except String Worker := fun i =>
  Except.ok { id := "id" ++ Nat.repr i }

/-- A sample job of capacity 2 with an empty worker map. -/
def jobC6 : Job :=
  { id := "jC", name := "n", email := "e", capacity := 2, timelimit := 9
    workers := [], hash := "h", hashType := "t" }

/-- A sample job of capacity 0 with an empty worker map. -/
def jobC5 : Job :=
  { id := "jD", name := "n", email := "e", capacity := 0, timelimit := 9
    workers := [], hash := "h", hashType := "t" }

/-- A sample instance. -/
def instA : Instance := { instanceId := "i-0", publicIpAddress := "10.0.0.1" }

/-- An `SshEnv` whose instance resolution, key handling and sessions all
succeed but whose `ssh.Dial` fails on every attempt. -/
def envC3 : SshEnv :=
  { describe := fun _ => Except.ok [{ instances := [instA] }]
    readFile := fun _ => Except.ok "KEY"
    parsePrivateKey := fun _ => Except.ok { sid := 0 }
    dial := fun _ => Except.error "connect timeout"
    newSession := fun _ => Except.ok { nid := 0 }
    runSession := fun _ _ => Except.ok "out"
    pemPath := "k.pem" }

/-- An `SshEnv` where everything succeeds except that the command
`"bad"` exits with an error. -/
def envC4 : SshEnv :=
  { describe := fun _ => Except.ok [{ instances := [instA] }]
    readFile := fun _ => Except.ok "KEY"
    parsePrivateKey := fun _ => Except.ok { sid := 0 }
    dial := fun _ => Except.ok { cid := 0 }
    newSession := fun _ => Except.ok { nid := 0 }
    runSession := fun _ cmd =>
      if cmd = "bad" then Except.error "exit status 1" else Except.ok "out"
    pemPath := "k.pem" }

/-- An `SshEnv` whose DescribeInstances query succeeds but returns one
reservation with no instances. -/
def envC7 : SshEnv :=
  { describe := fun _ => Except.ok [{ instances := [] }]
    readFile := fun _ => Except.ok "KEY"
    parsePrivateKey := fun _ => Except.ok { sid := 0 }
    dial := fun _ => Except.ok { cid := 0 }
    newSession := fun _ => Except.ok { nid := 0 }
    runSession := fun _ _ => Except.ok "out"
    pemPath := "k.pem" }

/-- An all-success `SshEnv` whose commands print `"AAA"`. -/
def envOutA : SshEnv :=
  { describe := fun _ => Except.ok [{ instances := [instA] }]
    readFile := fun _ => Except.ok "KEY"
    parsePrivateKey := fun _ => Except.ok { sid := 0 }
    dial := fun _ => Except.ok { cid := 0 }
    newSession := fun _ => Except.ok { nid := 0 }
    runSession := fun _ _ => Except.ok "AAA"
    pemPath := "k.pem" }

/-- An all-success `SshEnv` whose commands print `"BBB"`. -/
def envOutB : SshEnv :=
  { describe := fun _ => Except.ok [{ instances := [instA] }]
    readFile := fun _ => Except.ok "KEY"
    parsePrivateKey := fun _ => Except.ok { sid := 0 }
    dial := fun _ => Except.ok { cid := 0 }
    newSession := fun _ => Except.ok { nid := 0 }
    runSession := fun _ _ => Except.ok "BBB"
    pemPath := "k.pem" }

/-! General lemmas about the Go-map operations. -/

theorem mapLookup_mapInsert_self {α : Type} (m : List (String × α)) (k : String) (v : α) :
    mapLookup (mapInsert m k v) k = some v := by
  induction m with
  | nil => simp [mapInsert, mapLookup]
  | cons p rest ih =>
      obtain ⟨k2, v2⟩ := p
      by_cases h : k2 = k <;> simp [mapInsert, mapLookup, h, ih]

theorem mapLookup_mapInsert_ne {α : Type} (m : List (String × α)) (k : String) (v : α)
    (k2 : String) (h : k2 ≠ k) :
    mapLookup (mapInsert m k v) k2 = mapLookup m k2 := by
  induction m with
  | nil => simp [mapInsert, mapLookup, Ne.symm h]
  | cons p rest ih =>
      obtain ⟨k3, v3⟩ := p
      by_cases h3 : k3 = k
      · subst h3
        simp [mapInsert, mapLookup, Ne.symm h]
      · by_cases h4 : k3 = k2
        · subst h4
          simp [mapInsert, mapLookup, h3]
        · simp [mapInsert, mapLookup, h3, h4, ih]

theorem mapLookup_mapDelete_self {α : Type} (m : List (String × α)) (k : String) :
    mapLookup (mapDelete m k) k = none := by
  induction m with
  | nil => simp [mapDelete, mapLookup]
  | cons p rest ih =>
      obtain ⟨k2, v2⟩ := p
      by_cases h : k2 = k <;> simp [mapDelete, mapLookup, h, ih]

theorem mapLookup_mapDelete_ne {α : Type} (m : List (String × α)) (k : String)
    (k2 : String) (h : k2 ≠ k) :
    mapLookup (mapDelete m k) k2 = mapLookup m k2 := by
  induction m with
  | nil => simp [mapDelete]
  | cons p rest ih =>
      obtain ⟨k3, v3⟩ := p
      by_cases h3 : k3 = k
      · subst h3
        simp [mapDelete, mapLookup, Ne.symm h, ih]
      · by_cases h4 : k3 = k2
        · subst h4
          simp [mapDelete, mapLookup, h3]
        · simp [mapDelete, mapLookup, h3, h4, ih]

theorem mapLookup_append {α : Type} (m1 m2 : List (String × α)) (k : String) :
    mapLookup (m1 ++ m2) k =
      match mapLookup m1 k with
      | some v => some v
      | none => mapLookup m2 k := by
  induction m1 with
  | nil => simp [mapLookup]
  | cons p rest ih =>
      obtain ⟨k2, v2⟩ := p
      by_cases h : k2 = k <;> simp [mapLookup, h, ih]

theorem mapInsert_eq_append {α : Type} (m : List (String × α)) (k : String) (v : α)
    (h : mapLookup m k = none) : mapInsert m k v = m ++ [(k, v)] := by
  induction m with
  | nil => simp [mapInsert]
  | cons p rest ih =>
      obtain ⟨k2, v2⟩ := p
      by_cases h2 : k2 = k
      · simp [mapLookup, h2] at h
      · simp [mapLookup, h2] at h
        simp [mapInsert, h2, ih h]

theorem length_mapInsert_le {α : Type} (m : List (String × α)) (k : String) (v : α) :
    (mapInsert m k v).length ≤ m.length + 1 := by
  induction m with
  | nil => simp [mapInsert]
  | cons p rest ih =>
      obtain ⟨k2, v2⟩ := p
      by_cases h : k2 = k
      · simp [mapInsert, h]
      · simp [mapInsert, h]
        omega

/-! Lemmas connecting the `StartJob` fan-out loop with its per-result
description. -/

theorem foldl_applyCreateResult (l : List (Except String Worker))
    (ws : List (String × Worker)) (errs : List String) :
    l.foldl applyCreateResult (ws, errs) =
      (insertAll ws (okWorkers l), errs ++ errMessages l) := by
  induction l generalizing ws errs with
  | nil => simp [insertAll, okWorkers, errMessages]
  | cons r t ih =>
      cases r with
      | error e =>
          simp only [List.foldl_cons, applyCreateResult, ih]
          simp [okWorkers, errMessages, insertAll]
      | ok w =>
          simp only [List.foldl_cons, applyCreateResult, ih]
          simp [okWorkers, errMessages, insertAll]

theorem range_foldl_startStep (c : Nat → Except String Worker) (n : Nat)
    (ws : List (String × Worker)) (errs : List String) :
    (List.range n).foldl (startStep c) (ws, errs) =
      (insertAll ws (okWorkers (createResults c n)),
       errs ++ errMessages (createResults c n)) := by
  have h : (List.range n).foldl (startStep c) (ws, errs) =
      ((List.range n).map c).foldl applyCreateResult (ws, errs) := by
    rw [List.foldl_map]
    rfl
  rw [h, createResults, foldl_applyCreateResult]

theorem insertAll_length_le (ws : List (String × Worker)) (l : List Worker) :
    (insertAll ws l).length ≤ ws.length + l.length := by
  induction l generalizing ws with
  | nil => simp [insertAll]
  | cons w t ih =>
      have h1 : (insertAll ws (w :: t)) = insertAll (mapInsert ws w.id w) t := rfl
      have h2 := ih (mapInsert ws w.id w)
      have h3 := length_mapInsert_le ws w.id w
      rw [h1]
      simp only [List.length_cons]
      omega

theorem okWorkers_cons_error (e : String) (t : List (Except String Worker)) :
    okWorkers (Except.error e :: t) = okWorkers t := by
  simp [okWorkers]

theorem okWorkers_cons_ok (w : Worker) (t : List (Except String Worker)) :
    okWorkers (Except.ok w :: t) = w :: okWorkers t := by
  simp [okWorkers]

theorem errMessages_cons_error (e : String) (t : List (Except String Worker)) :
    errMessages (Except.error e :: t) = e :: errMessages t := by
  simp [errMessages]

theorem errMessages_cons_ok (w : Worker) (t : List (Except String Worker)) :
    errMessages (Except.ok w :: t) = errMessages t := by
  simp [errMessages]

theorem okWorkers_length_add (l : List (Except String Worker)) :
    (okWorkers l).length + (errMessages l).length = l.length := by
  induction l with
  | nil => rfl
  | cons r t ih =>
      cases r with
      | error e =>
          rw [okWorkers_cons_error, errMessages_cons_error]
          simp only [List.length_cons]
          omega
      | ok w =>
          rw [okWorkers_cons_ok, errMessages_cons_ok]
          simp only [List.length_cons]
          omega

theorem okWorkers_all_ok_of_length (l : List (Except String Worker))
    (h : (okWorkers l).length = l.length) :
    ∀ r ∈ l, ∃ w, r = Except.ok w := by
  induction l with
  | nil => simp
  | cons r t ih =>
      cases r with
      | error e =>
          exfalso
          have h1 := okWorkers_length_add t
          rw [okWorkers_cons_error] at h
          simp only [List.length_cons] at h
          omega
      | ok w =>
          rw [okWorkers_cons_ok] at h
          simp only [List.length_cons] at h
          have h2 : (okWorkers t).length = t.length := by omega
          intro r hr
          rcases List.mem_cons.1 hr with h3 | h3
          · exact ⟨w, by rw [h3]⟩
          · exact ih h2 r h3

theorem insertAll_eq_append (l : List Worker) :
    ∀ ws : List (String × Worker),
      (∀ w ∈ l, mapLookup ws w.id = none) →
      (l.map Worker.id).Nodup →
      insertAll ws l = ws ++ l.map fun w => (w.id, w) := by
  induction l with
  | nil => intro ws _ _; simp [insertAll]
  | cons w t ih =>
      intro ws hfresh hnd
      have h1 : insertAll ws (w :: t) = insertAll (mapInsert ws w.id w) t := rfl
      have h2 : mapInsert ws w.id w = ws ++ [(w.id, w)] :=
        mapInsert_eq_append ws w.id w (hfresh w (List.mem_cons_self w t))
      have hnd3 : (w.id :: t.map Worker.id).Nodup := by simpa using hnd
      have hnd2 := List.nodup_cons.1 hnd3
      have h3 : ∀ x ∈ t, mapLookup (ws ++ [(w.id, w)]) x.id = none := by
        intro x hx
        rw [mapLookup_append]
        have h4 : mapLookup ws x.id = none := hfresh x (List.mem_cons_of_mem w hx)
        have h5 : ¬ x.id = w.id := by
          intro hcontra
          exact hnd2.1 (hcontra ▸ List.mem_map_of_mem Worker.id hx)
        simp [h4, mapLookup, Ne.symm h5]
      rw [h1, h2, ih (ws ++ [(w.id, w)]) h3 hnd2.2]
      simp

/-! Lemmas about the `StopJob` error-collection loop and the dial
retry loop. -/

theorem foldl_stopErrors (stopWorker : Worker → Option String)
    (ws : List (String × Worker)) (errs : List String) :
    ws.foldl
      (fun es p =>
        match stopWorker p.2 with
        | some e => es ++ [e]
        | none => es) errs = errs ++ stopErrors stopWorker ws := by
  induction ws generalizing errs with
  | nil => simp [stopErrors]
  | cons p t ih =>
      cases h : stopWorker p.2 with
      | none => simp [stopErrors, List.filterMap_cons, h, ih]
      | some e => simp [stopErrors, List.filterMap_cons, h, ih]

theorem dialGo_all_fail (dial : Nat → Except String Conn)
    (h : ∀ t, ∃ e, dial t = Except.error e) :
    ∀ (fuel tryN : Nat), dialGo dial tryN fuel = (none, fuel) := by
  intro fuel
  induction fuel with
  | zero => intro tryN; rfl
  | succ k ih =>
      intro tryN
      obtain ⟨e, he⟩ := h tryN
      simp [dialGo, he, ih]

/-- Closed form of `Manager.StartJob`: the fan-out loop inserts exactly
the successful creations and collects exactly the failure messages, in
order. -/
theorem StartJob_eq (createWorker : Nat → Except String Worker)
    (man : Manager) (job : Job) :
    Manager.StartJob createWorker man job =
      if 0 < (errMessages (createResults createWorker job.capacity.toNat)).length then
        { man := man
          job :=
            { job with
                workers := insertAll job.workers
                  (okWorkers (createResults createWorker job.capacity.toNat)) }
          err :=
            some (String.intercalate "; "
              (errMessages (createResults createWorker job.capacity.toNat))) }
      else
        { man :=
            { man with
                jobs := mapInsert man.jobs job.id
                  { job with
                      workers := insertAll job.workers
                        (okWorkers (createResults createWorker job.capacity.toNat)) } }
          job :=
            { job with
                workers := insertAll job.workers
                  (okWorkers (createResults createWorker job.capacity.toNat)) }
          err := none } := by
  simp only [Manager.StartJob, range_foldl_startStep, List.nil_append]

/-- Closed form of `Manager.StopJob`: the teardown loop collects exactly
the per-worker failure messages, in iteration order; the registry entry
is deleted only on the error-free branch. -/
theorem StopJob_eq (stopWorker : Worker → Option String)
    (man : Manager) (job : Job) :
    Manager.StopJob stopWorker man job =
      if 0 < (stopErrors stopWorker job.workers).length then
        { man := man
          job := job
          err :=
            some (String.intercalate "; " (stopErrors stopWorker job.workers)) }
      else
        { man := { man with jobs := mapDelete man.jobs job.id }
          job := job
          err := none } := by
  simp only [Manager.StopJob, foldl_stopErrors, List.nil_append]

/-- Claim C1, counterexample: on a concrete manager whose registry holds
the job and a `stopWorker` oracle that fails, `StopJob` returns the
aggregate error but the registry still contains the job afterwards, so
the removal is not unconditional. -/
theorem stopJob_error_keeps_registry_cex :
    (Manager.StopJob stopFail manA jobA).err = some "terminate failed" ∧
    mapLookup (Manager.StopJob stopFail manA jobA).man.jobs jobA.id = some jobA :=
  ⟨rfl, rfl⟩

/-- Claim C1 (amended): `StopJob` calls `stopWorker` on every worker of
the worker map and collects all failure messages; when one or more
occurred it returns their aggregate error and leaves the manager (hence
the registry) unchanged, so the job remains registered; it removes the
registry entry for the job id only when every `stopWorker` call
succeeded, returning nil. -/
theorem stopJob_spec (stopWorker : Worker → Option String)
    (man : Manager) (job : Job) :
    (stopErrors stopWorker job.workers ≠ [] →
       (Manager.StopJob stopWorker man job).man = man ∧
       (Manager.StopJob stopWorker man job).err =
         some (String.intercalate "; " (stopErrors stopWorker job.workers))) ∧
    (stopErrors stopWorker job.workers = [] →
       (Manager.StopJob stopWorker man job).man.jobs = mapDelete man.jobs job.id ∧
       (Manager.StopJob stopWorker man job).err = none) := by
  constructor
  · intro hne
    have hpos : 0 < (stopErrors stopWorker job.workers).length :=
      List.length_pos.2 hne
    rw [StopJob_eq, if_pos hpos]
    exact ⟨rfl, rfl⟩
  · intro hnil
    have hz : ¬ 0 < (stopErrors stopWorker job.workers).length := by
      rw [hnil]
      simp
    rw [StopJob_eq, if_neg hz]
    exact ⟨rfl, rfl⟩

/-- Witness for the amended claim C1 at concrete inputs: with an
all-success `stopWorker` oracle the job is removed from the registry and
nil is returned. -/
theorem stopJob_spec_witness :
    stopErrors stopOk jobA.workers = [] ∧
    ((Manager.StopJob stopOk manA jobA).man.jobs = mapDelete manA.jobs jobA.id ∧
     (Manager.StopJob stopOk manA jobA).err = none) :=
  ⟨rfl, (stopJob_spec stopOk manA jobA).2 rfl⟩

/-- Claim C2: on a job with an initially empty worker map, `StartJob`
runs all `capacity` creation attempts; when at least one fails (and the
successfully created workers have pairwise distinct ids, as instance ids
are) it returns the aggregate of all failure messages in order, the job
holds exactly the successfully created workers (so `capacity − k` of
them when `k` attempts failed), and the manager, hence its registry, is
unchanged. -/
theorem startJob_partial_failure (createWorker : Nat → Except String Worker)
    (man : Manager) (job : Job)
    (hw : job.workers = [])
    (hk : 0 < (errMessages (createResults createWorker job.capacity.toNat)).length)
    (hnd : ((okWorkers (createResults createWorker job.capacity.toNat)).map Worker.id).Nodup) :
    (Manager.StartJob createWorker man job).err =
      some (String.intercalate "; "
        (errMessages (createResults createWorker job.capacity.toNat))) ∧
    (Manager.StartJob createWorker man job).job.workers =
      (okWorkers (createResults createWorker job.capacity.toNat)).map
        (fun w => (w.id, w)) ∧
    (Manager.StartJob createWorker man job).job.workers.length =
      job.capacity.toNat -
        (errMessages (createResults createWorker job.capacity.toNat)).length ∧
    (Manager.StartJob createWorker man job).man = man := by
  have hmap : insertAll job.workers
        (okWorkers (createResults createWorker job.capacity.toNat)) =
      (okWorkers (createResults createWorker job.capacity.toNat)).map
        (fun w => (w.id, w)) := by
    rw [hw]
    have h := insertAll_eq_append
      (okWorkers (createResults createWorker job.capacity.toNat)) []
      (fun _ _ => rfl) hnd
    simpa using h
  rw [StartJob_eq, if_pos hk]
  refine ⟨rfl, hmap, ?_, rfl⟩
  rw [hmap, List.length_map]
  have h2 := okWorkers_length_add (createResults createWorker job.capacity.toNat)
  have h3 : (createResults createWorker job.capacity.toNat).length =
      job.capacity.toNat := by
    simp [createResults]
  omega

/-- Witness for claim C2 at concrete inputs: capacity 4 with the second
and fourth attempts failing yields the two-message aggregate, two
workers, and an unchanged registry. -/
theorem startJob_partial_failure_witness :
    jobC2.workers = [] ∧
    0 < (errMessages (createResults createC2 jobC2.capacity.toNat)).length ∧
    ((okWorkers (createResults createC2 jobC2.capacity.toNat)).map Worker.id).Nodup ∧
    ((Manager.StartJob createC2 man0 jobC2).err =
        some (String.intercalate "; "
          (errMessages (createResults createC2 jobC2.capacity.toNat))) ∧
      (Manager.StartJob createC2 man0 jobC2).job.workers =
        (okWorkers (createResults createC2 jobC2.capacity.toNat)).map
          (fun w => (w.id, w)) ∧
      (Manager.StartJob createC2 man0 jobC2).job.workers.length =
        jobC2.capacity.toNat -
          (errMessages (createResults createC2 jobC2.capacity.toNat)).length ∧
      (Manager.StartJob createC2 man0 jobC2).man = man0) :=
  ⟨rfl, by decide, by decide,
   startJob_partial_failure createC2 man0 jobC2 rfl (by decide) (by decide)⟩

/-- Claim C5: `StartJob` on a job with capacity 0 and an empty worker
map returns nil, leaves the job (and its empty worker map) unchanged,
registers the job in the registry, and makes no provisioning call: the
result does not depend on the `createWorker` oracle at all. -/
theorem startJob_zero_capacity (createWorker : Nat → Except String Worker)
    (man : Manager) (job : Job)
    (hcap : job.capacity = 0) (hw : job.workers = []) :
    (Manager.StartJob createWorker man job).err = none ∧
    (Manager.StartJob createWorker man job).job = job ∧
    (Manager.StartJob createWorker man job).man.jobs =
      mapInsert man.jobs job.id job ∧
    ∀ createB : Nat → Except String Worker,
      Manager.StartJob createB man job = Manager.StartJob createWorker man job := by
  obtain ⟨jid, jn, je, jc, jt, jw, jh, jht⟩ := job
  have hc2 : jc = 0 := hcap
  have hw2 : jw = [] := hw
  subst hc2
  subst hw2
  exact ⟨rfl, rfl, rfl, fun _ => rfl⟩

/-- Witness for claim C5 at concrete inputs. -/
theorem startJob_zero_capacity_witness :
    jobC5.capacity = 0 ∧ jobC5.workers = [] ∧
    ((Manager.StartJob createOk man0 jobC5).err = none ∧
     (Manager.StartJob createOk man0 jobC5).job = jobC5 ∧
     (Manager.StartJob createOk man0 jobC5).man.jobs =
       mapInsert man0.jobs jobC5.id jobC5 ∧
     ∀ createB : Nat → Except String Worker,
       Manager.StartJob createB man0 jobC5 = Manager.StartJob createOk man0 jobC5) :=
  ⟨rfl, rfl, startJob_zero_capacity createOk man0 jobC5 rfl rfl⟩

/-- Claim C3: when every `ssh.Dial` attempt fails (and the earlier
steps of `runCommand` succeed, so the retry loop is reached),
`runCommand` makes exactly 5 dial attempts, the configured maximum — but
it then dereferences the nil connection instead of returning a
connection-exhausted error: the loop discards the dial error and the
code never checks `conn` for nil after the loop. -/
theorem runCommand_dial_exhausted (env : SshEnv) (w : Worker) (cmd : String)
    (inst : Instance) (pem : String) (sg : Signer)
    (hinst : Manager.getWorkerInstance env w = Except.ok inst)
    (hpem : env.readFile env.pemPath = Except.ok pem)
    (hsig : env.parsePrivateKey pem = Except.ok sg)
    (hdial : ∀ t, ∃ e, env.dial t = Except.error e) :
    Manager.runCommand env w cmd = (RunOutcome.nilDeref, 5) := by
  have hloop : dialLoop env.dial 1 5 = (none, 5) := by
    have h5 := dialGo_all_fail env.dial hdial 5 1
    simpa [dialLoop] using h5
  simp only [Manager.runCommand, hinst, hpem, hsig, hloop]

/-- Witness for claim C3 at concrete inputs: with an environment whose
dial always fails, `runCommand` performs 5 attempts and ends in the nil
dereference. -/
theorem runCommand_dial_exhausted_witness :
    (∀ t, ∃ e, envC3.dial t = Except.error e) ∧
    Manager.runCommand envC3 w0 "whoami" = (RunOutcome.nilDeref, 5) :=
  ⟨fun _ => ⟨"connect timeout", rfl⟩,
   runCommand_dial_exhausted envC3 w0 "whoami" instA "KEY" { sid := 0 }
     rfl rfl rfl (fun _ => ⟨"connect timeout", rfl⟩)⟩

/-- Claim C4: `runCommands` runs the commands in order and stops at the
first failure: when every command of `pre` succeeds and `c` fails with
error `e`, the call on `pre ++ c :: post` returns exactly `e`, for every
`post` (so no later command influences the result, it is never
attempted); when every command succeeds the call returns nil. -/
theorem runCommands_fail_fast (env : SshEnv) (w : Worker) :
    (∀ (pre : List String) (c : String) (post : List String) (e : String),
       (∀ x ∈ pre, ∃ out, (Manager.runCommand env w x).1 = RunOutcome.ok out) →
       (Manager.runCommand env w c).1 = RunOutcome.err e →
       Manager.runCommands env w (pre ++ c :: post) = CmdsOutcome.err e) ∧
    (∀ cmds : List String,
       (∀ x ∈ cmds, ∃ out, (Manager.runCommand env w x).1 = RunOutcome.ok out) →
       Manager.runCommands env w cmds = CmdsOutcome.ok) := by
  constructor
  · intro pre
    induction pre with
    | nil =>
        intro c post e _ hc
        simp [Manager.runCommands, hc]
    | cons a t ih =>
        intro c post e hpre hc
        obtain ⟨out, hout⟩ := hpre a (List.mem_cons_self a t)
        have h2 : Manager.runCommands env w ((a :: t) ++ c :: post) =
            Manager.runCommands env w (t ++ c :: post) := by
          simp [Manager.runCommands, hout]
        rw [h2]
        exact ih c post e (fun x hx => hpre x (List.mem_cons_of_mem a hx)) hc
  · intro cmds
    induction cmds with
    | nil => intro _; rfl
    | cons a t ih =>
        intro hall
        obtain ⟨out, hout⟩ := hall a (List.mem_cons_self a t)
        have h2 : Manager.runCommands env w (a :: t) =
            Manager.runCommands env w t := by
          simp [Manager.runCommands, hout]
        rw [h2]
        exact ih (fun x hx => hall x (List.mem_cons_of_mem a hx))

/-- Witness for claim C4 at concrete inputs: with `"bad"` failing after
a successful `"ls"`, the sequence `["ls", "bad", "later"]` returns the
error of `"bad"`. -/
theorem runCommands_fail_fast_witness :
    (∀ x ∈ ["ls"], ∃ out, (Manager.runCommand envC4 w0 x).1 = RunOutcome.ok out) ∧
    (Manager.runCommand envC4 w0 "bad").1 = RunOutcome.err "exit status 1" ∧
    Manager.runCommands envC4 w0 (["ls"] ++ "bad" :: ["later"]) =
      CmdsOutcome.err "exit status 1" := by
  refine ⟨?_, rfl, ?_⟩
  · intro x hx
    rw [List.mem_singleton] at hx
    subst hx
    exact ⟨"out", rfl⟩
  · exact (runCommands_fail_fast envC4 w0).1 ["ls"] "bad" ["later"] "exit status 1"
      (fun x hx => by
        rw [List.mem_singleton] at hx
        subst hx
        exact ⟨"out", rfl⟩) rfl

/-- Claim C6: starting from an empty worker map, the worker map holds at
most `capacity` entries after every prefix of the fan-out loop (so at
every point during and after `StartJob`), and it holds exactly
`capacity` entries after `StartJob` only when every creation attempt
succeeded. -/
theorem startJob_capacity_invariant (createWorker : Nat → Except String Worker)
    (man : Manager) (job : Job)
    (hw : job.workers = []) (hcap : 0 ≤ job.capacity) :
    (∀ m : Nat, m ≤ job.capacity.toNat →
       ((((List.range m).foldl (startStep createWorker)
           (job.workers, [])).1.length : Int) ≤ job.capacity)) ∧
    (((Manager.StartJob createWorker man job).job.workers.length : Int) =
        job.capacity →
       ∀ i : Nat, i < job.capacity.toNat → ∃ w, createWorker i = Except.ok w) := by
  have h4 : (job.capacity.toNat : Int) = job.capacity := Int.toNat_of_nonneg hcap
  constructor
  · intro m hm
    rw [hw, range_foldl_startStep]
    show ((insertAll [] (okWorkers (createResults createWorker m))).length : Int) ≤
      job.capacity
    have h1 := insertAll_length_le [] (okWorkers (createResults createWorker m))
    simp only [List.length_nil, Nat.zero_add] at h1
    have h2 := okWorkers_length_add (createResults createWorker m)
    have h3 : (createResults createWorker m).length = m := by
      simp [createResults]
    omega
  · intro heq i hi
    have hjob : (Manager.StartJob createWorker man job).job.workers =
        insertAll job.workers
          (okWorkers (createResults createWorker job.capacity.toNat)) := by
      rw [StartJob_eq]
      split <;> rfl
    rw [hjob, hw] at heq
    have h1 := insertAll_length_le []
      (okWorkers (createResults createWorker job.capacity.toNat))
    simp only [List.length_nil, Nat.zero_add] at h1
    have h2 := okWorkers_length_add (createResults createWorker job.capacity.toNat)
    have h3 : (createResults createWorker job.capacity.toNat).length =
        job.capacity.toNat := by
      simp [createResults]
    have h5 : (okWorkers (createResults createWorker job.capacity.toNat)).length =
        (createResults createWorker job.capacity.toNat).length := by
      omega
    have hall := okWorkers_all_ok_of_length _ h5
    have hmem : createWorker i ∈ createResults createWorker job.capacity.toNat := by
      simp only [createResults, List.mem_map]
      exact ⟨i, List.mem_range.2 hi, rfl⟩
    exact hall _ hmem

/-- Witness for claim C6 at concrete inputs: capacity 2, both creations
succeeding. -/
theorem startJob_capacity_invariant_witness :
    jobC6.workers = [] ∧ 0 ≤ jobC6.capacity ∧
    ((((List.range 1).foldl (startStep createOk)
        (jobC6.workers, [])).1.length : Int) ≤ jobC6.capacity) ∧
    (∃ w, createOk 0 = Except.ok w) := by
  refine ⟨rfl, by decide, ?_, ?_⟩
  · exact (startJob_capacity_invariant createOk man0 jobC6 rfl (by decide)).1
      1 (by decide)
  · exact (startJob_capacity_invariant createOk man0 jobC6 rfl (by decide)).2
      (by decide) 0 (by decide)

/-- Claim C7: when the describe-instances query succeeds but yields no
instance in any reservation, `getWorkerInstance` returns the distinct
not-found error (never success), and `runCommand` propagates exactly
that error to its caller. -/
theorem getWorkerInstance_not_found (env : SshEnv) (w : Worker)
    (rs : List Reservation)
    (hdesc : env.describe w.id = Except.ok rs)
    (hempty : ∀ r ∈ rs, r.instances = []) :
    Manager.getWorkerInstance env w =
      Except.error "Could not find running instance." ∧
    ∀ cmd, (Manager.runCommand env w cmd).1 =
      RunOutcome.err "Could not find running instance." := by
  have hflat : (rs.map Reservation.instances).flatten = [] := by
    rw [List.flatten_eq_nil_iff]
    intro x hx
    obtain ⟨r, hr, hxr⟩ := List.mem_map.1 hx
    rw [← hxr]
    exact hempty r hr
  have hgw : Manager.getWorkerInstance env w =
      Except.error "Could not find running instance." := by
    simp [Manager.getWorkerInstance, hdesc, hflat]
  refine ⟨hgw, fun cmd => ?_⟩
  simp [Manager.runCommand, hgw]

/-- Witness for claim C7 at concrete inputs: an environment whose
describe query returns one empty reservation. -/
theorem getWorkerInstance_not_found_witness :
    envC7.describe w0.id = Except.ok [{ instances := [] }] ∧
    (Manager.getWorkerInstance envC7 w0 =
        Except.error "Could not find running instance." ∧
      ∀ cmd, (Manager.runCommand envC7 w0 cmd).1 =
        RunOutcome.err "Could not find running instance.") :=
  ⟨rfl, getWorkerInstance_not_found envC7 w0 [{ instances := [] }] rfl
    (by decide)⟩

/-- Claim C8: `StopJob` never mutates the job object: whether it returns
success or an aggregate error, the job it hands back — including its
worker map — is exactly the input job; only the registry entry may
change. -/
theorem stopJob_preserves_workers (stopWorker : Worker → Option String)
    (man : Manager) (job : Job) :
    (Manager.StopJob stopWorker man job).job = job ∧
    (Manager.StopJob stopWorker man job).job.workers = job.workers := by
  have h : (Manager.StopJob stopWorker man job).job = job := by
    rw [StopJob_eq]
    split <;> rfl
  exact ⟨h, by rw [h]⟩

/-- Claim C9: `StartJob` and `StopJob` touch at most the registry entry
of their own job id: every other key maps to the same job before and
after; `StartJob` never removes an entry that was present and `StopJob`
never adds one to a key that was absent. -/
theorem registry_frame (createWorker : Nat → Except String Worker)
    (stopWorker : Worker → Option String) (man : Manager) (job : Job) :
    (∀ k, k ≠ job.id →
       mapLookup (Manager.StartJob createWorker man job).man.jobs k =
         mapLookup man.jobs k) ∧
    (∀ k j2, mapLookup man.jobs k = some j2 →
       ∃ j3, mapLookup (Manager.StartJob createWorker man job).man.jobs k =
         some j3) ∧
    (∀ k, k ≠ job.id →
       mapLookup (Manager.StopJob stopWorker man job).man.jobs k =
         mapLookup man.jobs k) ∧
    (∀ k, mapLookup man.jobs k = none →
       mapLookup (Manager.StopJob stopWorker man job).man.jobs k = none) := by
  refine ⟨?_, ?_, ?_, ?_⟩
  · intro k hk
    rw [StartJob_eq]
    split
    · rfl
    · exact mapLookup_mapInsert_ne man.jobs job.id _ k hk
  · intro k j2 hj
    rw [StartJob_eq]
    split
    · exact ⟨j2, hj⟩
    · by_cases hk : k = job.id
      · subst hk
        exact ⟨_, mapLookup_mapInsert_self man.jobs job.id _⟩
      · rw [mapLookup_mapInsert_ne man.jobs job.id _ k hk]
        exact ⟨j2, hj⟩

  · intro k hk
    rw [StopJob_eq]
    split
    · rfl
    · exact mapLookup_mapDelete_ne man.jobs job.id k hk
  · intro k hnone
    rw [StopJob_eq]
    split
    · exact hnone
    · by_cases hk : k = job.id
      · subst hk
        exact mapLookup_mapDelete_self man.jobs job.id
      · rw [mapLookup_mapDelete_ne man.jobs job.id k hk]
        exact hnone

/-- Witness for claim C9 at concrete inputs: a key different from the
started job id is untouched. -/
theorem registry_frame_witness :
    "other" ≠ jobA.id ∧
    mapLookup (Manager.StartJob createOk manA jobA).man.jobs "other" =
      mapLookup manA.jobs "other" :=
  ⟨by decide, (registry_frame createOk stopOk manA jobA).1 "other" (by decide)⟩

/-- Claim C10: `runCommands` discards the captured stdout of every
command: its result depends only on the output-erased shape of each
`runCommand` result (so two environments whose commands print different
output give identical results), and on full success it returns the bare
`ok` carrying no output — even though each `runCommand` call itself
returns the full buffered stdout. -/
theorem runCommands_discards_output (env env2 : SshEnv) (w : Worker) :
    (∀ cmds : List String,
       (∀ c ∈ cmds, eraseOutput (Manager.runCommand env w c).1 =
          eraseOutput (Manager.runCommand env2 w c).1) →
       Manager.runCommands env w cmds = Manager.runCommands env2 w cmds) ∧
    (∀ cmds : List String,
       (∀ c ∈ cmds, ∃ out, (Manager.runCommand env w c).1 = RunOutcome.ok out) →
       Manager.runCommands env w cmds = CmdsOutcome.ok) := by
  constructor
  · intro cmds
    induction cmds with
    | nil => intro _; rfl
    | cons a t ih =>
        intro hall
        have ha := hall a (List.mem_cons_self a t)
        have ht := ih fun x hx => hall x (List.mem_cons_of_mem a hx)
        cases h1 : (Manager.runCommand env w a).1 with
        | ok out =>
            rw [h1] at ha
            cases h2 : (Manager.runCommand env2 w a).1 with
            | ok out2 => simp [Manager.runCommands, h1, h2, ht]
            | err e2 =>
                rw [h2] at ha
                simp [eraseOutput] at ha
            | nilDeref =>
                rw [h2] at ha
                simp [eraseOutput] at ha
        | err e =>
            rw [h1] at ha
            cases h2 : (Manager.runCommand env2 w a).1 with
            | ok out2 =>
                rw [h2] at ha
                simp [eraseOutput] at ha
            | err e2 =>
                rw [h2] at ha
                simp only [eraseOutput, CmdsOutcome.err.injEq] at ha
                subst ha
                simp [Manager.runCommands, h1, h2]
            | nilDeref =>
                rw [h2] at ha
                simp [eraseOutput] at ha
        | nilDeref =>
            rw [h1] at ha
            cases h2 : (Manager.runCommand env2 w a).1 with
            | ok out2 =>
                rw [h2] at ha
                simp [eraseOutput] at ha
            | err e2 =>
                rw [h2] at ha
                simp [eraseOutput] at ha
            | nilDeref => simp [Manager.runCommands, h1, h2]
  · intro cmds
    induction cmds with
    | nil => intro _; rfl
    | cons a t ih =>
        intro hall
        obtain ⟨out, hout⟩ := hall a (List.mem_cons_self a t)
        have h2 : Manager.runCommands env w (a :: t) =
            Manager.runCommands env w t := by
          simp [Manager.runCommands, hout]
        rw [h2]
        exact ih fun x hx => hall x (List.mem_cons_of_mem a hx)

/-- Witness for claim C10 at concrete inputs: two environments whose
commands print different outputs give the same `runCommands` result. -/
theorem runCommands_discards_output_witness :
    (∀ c ∈ ["date"], eraseOutput (Manager.runCommand envOutA w0 c).1 =
       eraseOutput (Manager.runCommand envOutB w0 c).1) ∧
    Manager.runCommands envOutA w0 ["date"] =
      Manager.runCommands envOutB w0 ["date"] :=
  ⟨by decide,
   (runCommands_discards_output envOutA envOutB w0).1 ["date"] (by decide)⟩

end CCA
